import Mathlib

/-!
Verification of the raysect workflow engines (serial.py, multicore.py).

The embedding models:
* the configuration setters of `MulticoreEngine` (`processes`, `tasks_per_job`)
  over a small domain of Python values (None, int, float-as-rational);
* the job producer `MulticoreEngine._producer`, which repeatedly pops up to
  `tasks_per_job` tasks from the END of the task list into a job;
* the worker loop `MulticoreEngine._worker`;
* the result-aggregation loop of `MulticoreEngine.run` together with the
  sentinel shutdown phase;
* `SerialEngine.run`.
-/

/-- A Python value as far as the configuration setters observe it:
`None`, an `int`, or a `float` (modelled as a rational). -/
inductive PyVal where
  | none
  | int (n : Int)
  | float (q : Rat)
deriving DecidableEq

/-- Errors the configuration code can raise.  The source raises Python
`ValueError` for non-positive configuration values; the specification calls
this error class `InvalidConfiguration`.  Comparing `None` with `1`, as in
`value < 1`, raises `TypeError` in Python 3. -/
inductive PyError where
  | invalidConfiguration (msg : String)
  | typeError
deriving DecidableEq

/-- Python truthiness of a `PyVal`: `None`, `0` and `0.0` are falsy. -/
def pyTruthy : PyVal → Bool
  | .none => false
  | .int n => n != 0
  | .float q => q != 0

/-- The Python comparison `value < 1` on a `PyVal`: defined for numbers,
a `TypeError` for `None`. -/
def pyLtOne : PyVal → Except PyError Bool
  | .none => .error .typeError
  | .int n => .ok (decide (n < 1))
  | .float q => .ok (decide (q < 1))

/-- The Python conversion `int(value)`: truncation toward zero for a float,
identity for an int, `TypeError` for `None`. -/
def pyInt : PyVal → Except PyError Int
  | .none => .error .typeError
  | .int n => .ok n
  | .float q => .ok (if q < 0 then ⌈q⌉ else ⌊q⌋)

namespace MulticoreEngine

/-- The `tasks_per_job` property setter (multicore.py lines 96-100):
`if value < 1: raise ValueError(...)` else store the value unchanged. -/
def tasks_per_job_set (value : PyVal) : Except PyError PyVal :=
  match pyLtOne value with
  | .error e => .error e
  | .ok true =>
      .error (.invalidConfiguration
        "The number of tasks per job must be greater than zero.")
  | .ok false => .ok value

/-- The `processes` property setter (multicore.py lines 82-90): `None`
resolves to `cpu_count()` (passed here as the parameter `cpuCount`);
otherwise `value = int(value)` and values `<= 0` raise `ValueError`. -/
def processes_set (cpuCount : Nat) (value : PyVal) : Except PyError Int :=
  match value with
  | .none => .ok (cpuCount : Int)
  | v =>
    match pyInt v with
    | .error e => .error e
    | .ok n =>
      if n ≤ 0 then
        .error (.invalidConfiguration
          "Number of concurrent worker processes must be greater than zero.")
      else .ok n

/-- `MulticoreEngine.__init__` (multicore.py lines 73-76): runs the
`processes` setter on its first argument, then the `tasks_per_job` setter on
`tasks_per_job or 1`, i.e. on the default `1` whenever the argument is falsy.
Returns the resulting pair of stored attributes. -/
def init (cpuCount : Nat) (processes tasks_per_job : PyVal) :
    Except PyError (Int × PyVal) :=
  match processes_set cpuCount processes with
  | .error e => .error e
  | .ok p =>
    match tasks_per_job_set (if pyTruthy tasks_per_job then tasks_per_job else .int 1) with
    | .error e => .error e
    | .ok k => .ok (p, k)

/-- Python `list.pop()`: removes and returns the LAST element of the list,
or fails on an empty list (modelled as `none`; the producer only calls it
after an `if tasks:` guard). -/
def listPop {τ : Type} (ts : List τ) : Option (τ × List τ) :=
  match ts.reverse with
  | [] => Option.none
  | t :: rest => some (t, rest.reverse)

/-- The inner `for _ in range(K)` loop of `MulticoreEngine._producer`
(multicore.py lines 138-143): up to `K` times, if tasks remain, pop one from
the end of the task list and append it to the job, else break.  Returns the
job built and the remaining task list. -/
def buildJob {τ : Type} : Nat → List τ → List τ × List τ
  | 0, tasks => ([], tasks)
  | k + 1, tasks =>
    match listPop tasks with
    | Option.none => ([], tasks)
    | some (t, rest) =>
      let p := buildJob k rest
      (t :: p.1, p.2)

/-- The outer `while tasks` loop of `MulticoreEngine._producer` (multicore.py
lines 134-144): while tasks remain, build a job and emit it to the job queue.
The list returned collects the jobs in the order they are put on the queue.
`fuel` bounds the number of iterations; `none` models non-termination (the
loop makes no progress when `tasks_per_job = 0`). -/
def producerLoop {τ : Type} (K : Nat) : Nat → List τ → Option (List (List τ))
  | _, [] => some []
  | 0, _ :: _ => Option.none
  | fuel + 1, t :: ts =>
    let p := buildJob K (t :: ts)
    (producerLoop K fuel p.2).map (fun js => p.1 :: js)

/-- `MulticoreEngine._producer` with `tasks_per_job = K`: the sequence of
jobs put on the job queue, in production order.  One task is consumed per
inner-loop step, so `tasks.length` iterations of fuel are enough whenever the
loop terminates at all. -/
def producerJobs {τ : Type} (K : Nat) (tasks : List τ) : Option (List (List τ)) :=
  producerLoop K tasks.length tasks

/-- The worker loop of `MulticoreEngine._worker` (multicore.py lines 152-163)
applied to the stream of messages this worker takes from the job queue
(`none` is the shutdown sentinel `None`).  For each job received before the
sentinel, the worker renders every task of the job in order and puts the
collected results on the result queue as one message; the returned list
collects those messages in emission order.  The loop exits at the sentinel
(an exhausted stream means the worker is still blocked on `get`). -/
def workerRun {τ ρ : Type} (render : τ → ρ) : List (Option (List τ)) → List (List ρ)
  | [] => []
  | Option.none :: _ => []
  | some job :: rest => job.map render :: workerRun render rest

/-- The result-consumption loop of `MulticoreEngine.run` (multicore.py lines
120-125): `remaining` starts at `len(tasks)`; while it is nonzero (Python
truthiness: any nonzero int), take the next result batch from the result
queue, invoke `update` on each result of the batch and decrement `remaining`
once per result.  `batches` is the stream of messages arriving on the result
queue; the value returned is the list of results passed to `update`, in
order, or `none` when the loop would block forever on an exhausted queue. -/
def aggregate {ρ : Type} : Int → List (List ρ) → Option (List ρ)
  | remaining, batches =>
    if remaining = 0 then some []
    else
      match batches with
      | [] => Option.none
      | b :: bs => (aggregate (remaining - b.length) bs).map (fun us => b ++ us)

/-- An observable action of the main thread of `MulticoreEngine.run`: an
invocation of `update` with a result, or a `job_queue.put(None)` of one
shutdown sentinel. -/
inductive MainEvent (ρ : Type) where
  | update (r : ρ)
  | putSentinel
deriving DecidableEq

/-- The main thread of `MulticoreEngine.run` after spawning (multicore.py
lines 113-129): `workers` gets one process per `pid in range(processes)`;
the consumption loop runs with `remaining = len(tasks)` (its `update` calls
in order), and after it exits, `for _ in workers: job_queue.put(None)` puts
exactly one sentinel per worker.  The trace lists the events in program
order. -/
def runMainTrace {ρ : Type} (processes : Nat) (numTasks : Int)
    (batches : List (List ρ)) : Option (List (MainEvent ρ)) :=
  (aggregate numTasks batches).map
    (fun us => us.map MainEvent.update ++ List.replicate processes MainEvent.putSentinel)

end MulticoreEngine

namespace SerialEngine

/-- `SerialEngine.run` (serial.py lines 46-50): for each task in order,
compute `render task` and immediately pass the result to `update` before the
next task is rendered.  The side effects of `update` are modelled by state
passing: `update` maps a result and the current state to the next state. -/
def run {τ ρ σ : Type} (tasks : List τ) (render : τ → ρ)
    (update : ρ → σ → σ) (s : σ) : σ :=
  tasks.foldl (fun acc task => update (render task) acc) s

end SerialEngine

/-- Reference chunking of a list into consecutive groups of `k + 1`
elements: the shape `MulticoreEngine._producer` gives to the reversed task
list.  Written with `k + 1` so the recursion visibly makes progress. -/
def chunkList {τ : Type} (k : Nat) : List τ → List (List τ)
  | [] => []
  | t :: ts => (t :: ts).take (k + 1) :: chunkList k ((t :: ts).drop (k + 1))
termination_by ts => ts.length
decreasing_by simp [List.length_drop]; omega

open MulticoreEngine

section ProducerLemmas

/-- Popping from a list that ends in `t` returns `t` and the front. -/
theorem listPop_append {τ : Type} (l : List τ) (t : τ) :
    listPop (l ++ [t]) = some (t, l) := by
  simp [listPop]

/-- Popping the empty list fails. -/
theorem listPop_nil {τ : Type} : listPop ([] : List τ) = Option.none := rfl

/-- The inner producer loop, viewed through the reversed list: popping up to
`k` elements from the end of `L.reverse` yields the first `k` elements of `L`
as the job, leaving the rest (still reversed) behind. -/
theorem buildJob_reverse {τ : Type} (k : Nat) (L : List τ) :
    buildJob k L.reverse = (L.take k, (L.drop k).reverse) := by
  induction k generalizing L with
  | zero => simp [buildJob]
  | succ k ih =>
    cases L with
    | nil => simp [buildJob, listPop_nil]
    | cons t ts =>
      simp [buildJob, listPop_append, ih ts]

/-- Unfolding of `producerLoop` on a non-empty task list. -/
theorem producerLoop_ne {τ : Type} (K f : Nat) (tasks : List τ) (h : tasks ≠ []) :
    producerLoop K (f + 1) tasks =
      (producerLoop K f (buildJob K tasks).2).map
        (fun js => (buildJob K tasks).1 :: js) := by
  cases tasks with
  | nil => exact absurd rfl h
  | cons t ts => rfl

/-- Unfolding of `chunkList` on a non-empty list. -/
theorem chunkList_cons {τ : Type} (k : Nat) (t : τ) (ts : List τ) :
    chunkList k (t :: ts) =
      (t :: ts).take (k + 1) :: chunkList k ((t :: ts).drop (k + 1)) := by
  rw [chunkList]

/-- With positive batch size `k + 1` and enough fuel, the producer terminates
and produces exactly the chunks of the reversed task list. -/
theorem producerLoop_reverse {τ : Type} (k : Nat) (fuel : Nat) (L : List τ)
    (h : L.length ≤ fuel) :
    producerLoop (k + 1) fuel L.reverse = some (chunkList k L) := by
  induction fuel generalizing L with
  | zero =>
    have hL : L = [] := List.length_eq_zero.mp (Nat.le_zero.mp h)
    subst hL
    simp [producerLoop, chunkList]
  | succ f ih =>
    cases L with
    | nil => simp [producerLoop, chunkList]
    | cons t ts =>
      have hne : (t :: ts).reverse ≠ [] := by simp
      rw [producerLoop_ne _ _ _ hne, buildJob_reverse]
      have hlen : ((t :: ts).drop (k + 1)).length ≤ f := by
        simp only [List.length_drop]
        have := h
        simp only [List.length_cons] at this ⊢
        omega
      rw [ih _ hlen, chunkList_cons]
      rfl

/-- `MulticoreEngine._producer` with a positive `tasks_per_job` terminates on
every task list and produces the chunks of the reversed task list. -/
theorem producerJobs_eq_chunkList {τ : Type} (k : Nat) (tasks : List τ) :
    producerJobs (k + 1) tasks = some (chunkList k tasks.reverse) := by
  have h := producerLoop_reverse k tasks.length tasks.reverse
    (by rw [List.length_reverse])
  rw [List.reverse_reverse] at h
  exact h

end ProducerLemmas

section ChunkLemmas

/-- Concatenating the chunks gives back the original list: no task is lost
or duplicated by the batching. -/
theorem chunkList_flatten {τ : Type} (k : Nat) (L : List τ) :
    (chunkList k L).flatten = L := by
  induction L using chunkList.induct k with
  | case1 => simp [chunkList]
  | case2 t rest ih =>
    rw [chunkList_cons, List.flatten_cons, ih, List.take_append_drop]

/-- The number of chunks is the ceiling of the list length divided by the
chunk size `k + 1`. -/
theorem chunkList_length {τ : Type} (k : Nat) (L : List τ) :
    (chunkList k L).length = (L.length + k) / (k + 1) := by
  induction L using chunkList.induct k with
  | case1 =>
    simp [chunkList, Nat.div_eq_of_lt (Nat.lt_succ_self k)]
  | case2 t rest ih =>
    rw [chunkList_cons, List.length_cons, ih]
    simp only [List.length_drop, List.length_cons]
    rcases le_or_lt (rest.length + 1) (k + 1) with hle | hlt
    · have h0 : rest.length + 1 - (k + 1) = 0 := by omega
      have e1 : (0 + k) / (k + 1) = 0 := Nat.div_eq_of_lt (by omega)
      have e2 : (rest.length + 1 + k) / (k + 1) = 1 :=
        Nat.div_eq_of_lt_le (by omega) (by omega)
      rw [h0, e1, e2]
    · have h1 : rest.length + 1 - (k + 1) + k = rest.length := by omega
      have h2 : rest.length + 1 + k = rest.length + (k + 1) := by omega
      rw [h1, h2, Nat.add_div_right _ (Nat.succ_pos k)]

/-- A chunking of a non-empty list is non-empty. -/
theorem chunkList_ne_nil {τ : Type} (k : Nat) (L : List τ) (h : L ≠ []) :
    chunkList k L ≠ [] := by
  rcases L with _ | ⟨t, ts⟩
  · exact absurd rfl h
  · rw [chunkList_cons]; simp

/-- Every chunk except the last has exactly `k + 1` elements. -/
theorem chunkList_dropLast_length {τ : Type} (k : Nat) (L : List τ) :
    ∀ c ∈ (chunkList k L).dropLast, c.length = k + 1 := by
  induction L using chunkList.induct k with
  | case1 => simp [chunkList]
  | case2 t rest ih =>
    rw [chunkList_cons]
    by_cases hd : List.drop (k + 1) (t :: rest) = []
    · rw [hd]
      simp [chunkList]
    · have hk : k < rest.length := by simpa using hd
      obtain ⟨c0, cs, hcs⟩ :=
        List.exists_cons_of_ne_nil (chunkList_ne_nil k _ hd)
      rw [hcs, List.dropLast_cons₂]
      intro c hc
      rcases List.mem_cons.mp hc with rfl | hc
      · rw [List.length_take]
        simp only [List.length_cons]
        omega
      · exact ih c (by rw [hcs]; exact hc)

/-- When the list length is not a multiple of `k + 1`, the last chunk has
exactly `length mod (k + 1)` elements. -/
theorem chunkList_getLast {τ : Type} (k : Nat) (L : List τ) (hne : L ≠ [])
    (hmod : L.length % (k + 1) ≠ 0) :
    ∃ c, (chunkList k L).getLast? = some c ∧ c.length = L.length % (k + 1) := by
  induction L using chunkList.induct k with
  | case1 => exact absurd rfl hne
  | case2 t rest ih =>
    rw [chunkList_cons]
    by_cases hd : List.drop (k + 1) (t :: rest) = []
    · have hle : (t :: rest).length ≤ k + 1 := by
        have hk : rest.length ≤ k := by simpa using hd
        simp only [List.length_cons]
        omega
      have hlt : (t :: rest).length < k + 1 := by
        rcases Nat.lt_or_ge (t :: rest).length (k + 1) with h | h
        · exact h
        · exact absurd (by omega : (t :: rest).length = k + 1)
            (fun hEq => hmod (by rw [hEq, Nat.mod_self]))
      refine ⟨t :: rest, ?_, ?_⟩
      · rw [hd, List.take_of_length_le hle]
        simp [chunkList]
      · rw [Nat.mod_eq_of_lt hlt]
    · have hk : k < rest.length := by simpa using hd
      have hmodeq : (List.drop (k + 1) (t :: rest)).length % (k + 1) =
          (t :: rest).length % (k + 1) := by
        have h1 : (List.drop (k + 1) (t :: rest)).length = rest.length - k := by
          simp
        have h2 : (t :: rest).length = rest.length + 1 := by simp
        rw [h1, h2]
        have h3 : rest.length + 1 = (rest.length - k) + (k + 1) := by omega
        rw [h3, Nat.add_mod_right]
      obtain ⟨c, hc, hclen⟩ := ih hd (by rw [hmodeq]; exact hmod)
      refine ⟨c, ?_, by rw [hclen, hmodeq]⟩
      obtain ⟨c0, cs, hcs⟩ :=
        List.exists_cons_of_ne_nil (chunkList_ne_nil k _ hd)
      rw [hcs, List.getLast?_cons_cons]
      rw [hcs] at hc
      exact hc

end ChunkLemmas

section AggregateLemmas

/-- When the total number of results arriving on the result queue equals the
initial countdown, the aggregation loop terminates and passes every result
of every batch, in arrival order, to `update`. -/
theorem aggregate_eq_flatten {ρ : Type} (batches : List (List ρ)) (n : Int)
    (h : n = (((batches.map List.length).sum : Nat) : Int)) :
    aggregate n batches = some batches.flatten := by
  induction batches generalizing n with
  | nil =>
    subst h
    simp [aggregate]
  | cons b bs ih =>
    by_cases hn : n = 0
    · subst hn
      have hsum : ((b :: bs).map List.length).sum = 0 := by exact_mod_cast h.symm
      have hflat : (b :: bs).flatten = [] := by
        rw [← List.length_eq_zero, List.length_flatten, hsum]
      rw [aggregate]
      simp [hflat]
    · have hrest : (n - (b.length : Int)) = (((bs.map List.length).sum : Nat) : Int) := by
        simp only [List.map_cons, List.sum_cons] at h
        push_cast at h ⊢
        omega
      rw [aggregate]
      simp only [if_neg hn]
      rw [ih _ hrest]
      simp

/-- The aggregation loop with a countdown of zero performs no `update` calls
and terminates at once, whatever sits on the result queue. -/
theorem aggregate_zero {ρ : Type} (batches : List (List ρ)) :
    aggregate 0 batches = some [] := by
  rw [aggregate.eq_def]
  simp

end AggregateLemmas

section SerialLemmas

/-- Running the serial engine with a collecting `update` appends the
rendered results in task order. -/
theorem SerialEngine.run_collect {τ ρ : Type} (tasks : List τ) (render : τ → ρ)
    (acc : List ρ) :
    SerialEngine.run tasks render (fun r s => s ++ [r]) acc =
      acc ++ tasks.map render := by
  induction tasks generalizing acc with
  | nil => simp [SerialEngine.run]
  | cons t ts ih =>
    have hstep : SerialEngine.run (t :: ts) render (fun r s => s ++ [r]) acc =
        SerialEngine.run ts render (fun r s => s ++ [r]) (acc ++ [render t]) := rfl
    rw [hstep, ih]
    simp

end SerialLemmas

section PipelineLemmas

/-- Any arrival order of the worker batches carries one rendered result per
original task, so the countdown of `MulticoreEngine.run` reaches zero and
`update` receives the concatenation of the batches in arrival order. -/
theorem pipeline_aggregate {τ ρ : Type} (k : Nat) (tasks : List τ)
    (render : τ → ρ) (batches : List (List ρ))
    (harrive : batches.Perm ((chunkList k tasks.reverse).map (List.map render))) :
    aggregate ((tasks.length : Nat) : Int) batches = some batches.flatten := by
  apply aggregate_eq_flatten
  have h1 : (batches.map List.length).sum =
      (((chunkList k tasks.reverse).map (List.map render)).map List.length).sum :=
    (harrive.map List.length).sum_eq
  have h2 : (((chunkList k tasks.reverse).map (List.map render)).map List.length) =
      (chunkList k tasks.reverse).map List.length := by
    simp [List.map_map, Function.comp_def]
  have h3 : ((chunkList k tasks.reverse).map List.length).sum =
      (chunkList k tasks.reverse).flatten.length :=
    (List.length_flatten _).symm
  rw [h1, h2, h3, chunkList_flatten, List.length_reverse]

/-- The flattened arrival order is a permutation of the rendered tasks in
submission order. -/
theorem pipeline_flatten_perm {τ ρ : Type} (k : Nat) (tasks : List τ)
    (render : τ → ρ) (batches : List (List ρ))
    (harrive : batches.Perm ((chunkList k tasks.reverse).map (List.map render))) :
    batches.flatten.Perm (tasks.map render) := by
  have h1 : batches.flatten.Perm
      (((chunkList k tasks.reverse).map (List.map render)).flatten) :=
    harrive.flatten
  have h2 : ((chunkList k tasks.reverse).map (List.map render)).flatten =
      List.map render (chunkList k tasks.reverse).flatten :=
    (List.map_flatten render _).symm
  rw [h2, chunkList_flatten] at h1
  exact h1.trans ((tasks.reverse_perm).map render)

end PipelineLemmas

/-- C1: for every task list and deterministic render/update pair, the
multicore strategy delivers to `update` the same multiset of results as the
serial strategy — one rendered result per task, none duplicated, none lost —
for every possible arrival order of the worker batches; only the delivery
order may differ. -/
theorem multicore_serial_same_multiset {τ ρ : Type} (K : Nat) (hK : 1 ≤ K)
    (tasks : List τ) (render : τ → ρ) (jobs : List (List τ))
    (hjobs : MulticoreEngine.producerJobs K tasks = some jobs)
    (batches : List (List ρ))
    (harrive : batches.Perm (jobs.map (List.map render))) :
    ∃ us, MulticoreEngine.aggregate ((tasks.length : Nat) : Int) batches = some us ∧
      us.Perm (SerialEngine.run tasks render (fun r s => s ++ [r]) []) := by
  obtain ⟨k, rfl⟩ : ∃ k, K = k + 1 := ⟨K - 1, by omega⟩
  rw [producerJobs_eq_chunkList] at hjobs
  obtain rfl : jobs = chunkList k tasks.reverse := by
    injection hjobs with h
    exact h.symm
  refine ⟨batches.flatten, pipeline_aggregate k tasks render batches harrive, ?_⟩
  rw [SerialEngine.run_collect]
  simpa using pipeline_flatten_perm k tasks render batches harrive

/-- Witness for C1: five tasks, batch size two, identity render, with the
batches arriving out of production order. -/
theorem multicore_serial_same_multiset_witness :
    ∃ us, MulticoreEngine.aggregate (5 : Int) [[1], [3, 2], [5, 4]] = some us ∧
      us.Perm [1, 2, 3, 4, 5] :=
  multicore_serial_same_multiset 2 (by decide) [1, 2, 3, 4, 5] (fun n => n)
    [[5, 4], [3, 2], [1]] rfl [[1], [3, 2], [5, 4]] (by decide)

/-- C2: with `tasks_per_job = K` and a non-empty task list of `T` tasks, the
producer emits exactly `ceil(T / K)` jobs; every job except possibly the last
holds exactly `K` tasks, and when `T mod K` is nonzero the last job holds
`T mod K` tasks. -/
theorem producer_batching_sizes {τ : Type} (K : Nat) (hK : 1 ≤ K)
    (tasks : List τ) (hne : tasks ≠ []) (jobs : List (List τ))
    (hjobs : MulticoreEngine.producerJobs K tasks = some jobs) :
    jobs.length = (tasks.length + K - 1) / K ∧
    (∀ j ∈ jobs.dropLast, j.length = K) ∧
    (tasks.length % K ≠ 0 →
      ∃ last, jobs.getLast? = some last ∧ last.length = tasks.length % K) := by
  obtain ⟨k, rfl⟩ : ∃ k, K = k + 1 := ⟨K - 1, by omega⟩
  rw [producerJobs_eq_chunkList] at hjobs
  obtain rfl : jobs = chunkList k tasks.reverse := by
    injection hjobs with h
    exact h.symm
  refine ⟨?_, ?_, ?_⟩
  · rw [chunkList_length, List.length_reverse]
    congr 1
  · exact chunkList_dropLast_length k tasks.reverse
  · intro hmod
    have hrev : tasks.reverse ≠ [] := by
      simpa using hne
    have := chunkList_getLast k tasks.reverse hrev
      (by rw [List.length_reverse]; exact hmod)
    rw [List.length_reverse] at this
    exact this

/-- Witness for C2: five tasks with `tasks_per_job = 2` give three jobs of
sizes 2, 2 and 1. -/
theorem producer_batching_sizes_witness :
    ([[5, 4], [3, 2], [1]] : List (List Nat)).length = (5 + 2 - 1) / 2 ∧
    (∀ j ∈ ([[5, 4], [3, 2], [1]] : List (List Nat)).dropLast, j.length = 2) ∧
    (5 % 2 ≠ 0 →
      ∃ last, ([[5, 4], [3, 2], [1]] : List (List Nat)).getLast? = some last ∧
        last.length = 5 % 2) :=
  producer_batching_sizes 2 (by decide) [1, 2, 3, 4, 5] (by decide)
    [[5, 4], [3, 2], [1]] rfl

/-- C5: `run` terminates for every finite task list and every arrival order
of the worker batches; with zero tasks the aggregation loop of the multicore
strategy exits at once without invoking `update`, and the serial strategy
likewise invokes `update` on nothing. -/
theorem run_terminates {τ ρ : Type} (K : Nat) (hK : 1 ≤ K) (tasks : List τ)
    (render : τ → ρ) (jobs : List (List τ))
    (hjobs : MulticoreEngine.producerJobs K tasks = some jobs)
    (batches : List (List ρ))
    (harrive : batches.Perm (jobs.map (List.map render))) :
    (∃ us, MulticoreEngine.aggregate ((tasks.length : Nat) : Int) batches = some us) ∧
    (tasks = [] →
      MulticoreEngine.aggregate ((tasks.length : Nat) : Int) batches = some [] ∧
      SerialEngine.run tasks render (fun r s => s ++ [r]) [] = []) := by
  obtain ⟨k, rfl⟩ : ∃ k, K = k + 1 := ⟨K - 1, by omega⟩
  rw [producerJobs_eq_chunkList] at hjobs
  obtain rfl : jobs = chunkList k tasks.reverse := by
    injection hjobs with h
    exact h.symm
  have hagg := pipeline_aggregate k tasks render batches harrive
  refine ⟨⟨batches.flatten, hagg⟩, ?_⟩
  rintro rfl
  have hb : batches = [] := by
    have : batches.Perm [] := by
      simpa [chunkList] using harrive
    exact this.eq_nil
  subst hb
  exact ⟨hagg, rfl⟩

/-- Witness for C5: three workers, zero tasks, immediate return with no
`update` call. -/
theorem run_terminates_witness :
    (∃ us, MulticoreEngine.aggregate (0 : Int) ([] : List (List Nat)) = some us) ∧
    (([] : List Nat) = [] →
      MulticoreEngine.aggregate (0 : Int) ([] : List (List Nat)) = some [] ∧
      SerialEngine.run ([] : List Nat) (fun n => n) (fun r s => s ++ [r]) [] = []) :=
  run_terminates 1 (by decide) [] (fun n => n) [] rfl [] (List.Perm.refl _)

/-- C6: a worker emits, for every job received before the shutdown sentinel,
exactly one result-queue message holding the rendered results of that job in
the job task order — no message is dropped, duplicated or partially
delivered. -/
theorem worker_one_message_per_job {τ ρ : Type} (render : τ → ρ)
    (jobs : List (List τ)) (rest : List (Option (List τ))) :
    MulticoreEngine.workerRun render (jobs.map some ++ Option.none :: rest) =
      jobs.map (List.map render) := by
  induction jobs with
  | nil => simp [MulticoreEngine.workerRun]
  | cons j js ih =>
    simp [MulticoreEngine.workerRun, ih]

/-- C7: the serial engine renders the tasks in submission order and delivers
each result to `update` immediately, so a collecting `update` receives
exactly the rendered tasks in order; in particular with tasks `[1,2,3,4,5]`,
identity render and append-to-list update the collected output is
`[1,2,3,4,5]`. -/
theorem serial_in_order :
    (∀ (τ ρ : Type) (tasks : List τ) (render : τ → ρ),
      SerialEngine.run tasks render (fun r s => s ++ [r]) [] = tasks.map render) ∧
    SerialEngine.run [1, 2, 3, 4, 5] (fun n : Nat => n) (fun r s => s ++ [r]) [] =
      [1, 2, 3, 4, 5] := by
  constructor
  · intro τ ρ tasks render
    rw [SerialEngine.run_collect]
    simp
  · rfl

/-- C10: whenever the producer terminates, its jobs concatenated in
production order are exactly the reverse of the input task list — every task
in exactly one job, the first job holding the last-submitted tasks. -/
theorem producer_flatten_reverse {τ : Type} (K : Nat) (hK : 1 ≤ K)
    (tasks : List τ) (jobs : List (List τ))
    (hjobs : MulticoreEngine.producerJobs K tasks = some jobs) :
    jobs.flatten = tasks.reverse := by
  obtain ⟨k, rfl⟩ : ∃ k, K = k + 1 := ⟨K - 1, by omega⟩
  rw [producerJobs_eq_chunkList] at hjobs
  obtain rfl : jobs = chunkList k tasks.reverse := by
    injection hjobs with h
    exact h.symm
  exact chunkList_flatten k tasks.reverse

/-- Witness for C10: five tasks with `tasks_per_job = 2` concatenate to the
reversed input. -/
theorem producer_flatten_reverse_witness :
    ([[5, 4], [3, 2], [1]] : List (List Nat)).flatten = [1, 2, 3, 4, 5].reverse :=
  producer_flatten_reverse 2 (by decide) [1, 2, 3, 4, 5] [[5, 4], [3, 2], [1]] rfl

/-- C8: once the countdown of the aggregation loop (initialised to the task
count) reaches zero, the main thread puts exactly one shutdown sentinel per
worker — `processes` sentinels in all — on the job queue, and the trace shows
no sentinel before the countdown completes: every sentinel event follows
every `update` event. -/
theorem shutdown_sentinels {τ ρ : Type} [DecidableEq ρ] (processes K : Nat)
    (hK : 1 ≤ K) (tasks : List τ) (render : τ → ρ) (jobs : List (List τ))
    (hjobs : MulticoreEngine.producerJobs K tasks = some jobs)
    (batches : List (List ρ))
    (harrive : batches.Perm (jobs.map (List.map render))) :
    ∃ us : List ρ,
      MulticoreEngine.runMainTrace processes ((tasks.length : Nat) : Int) batches =
        some (us.map MainEvent.update ++
          List.replicate processes MainEvent.putSentinel) ∧
      (us.map MainEvent.update ++
        List.replicate processes MainEvent.putSentinel).count MainEvent.putSentinel =
        processes ∧
      (us.map MainEvent.update).count MainEvent.putSentinel = 0 := by
  obtain ⟨k, rfl⟩ : ∃ k, K = k + 1 := ⟨K - 1, by omega⟩
  rw [producerJobs_eq_chunkList] at hjobs
  obtain rfl : jobs = chunkList k tasks.reverse := by
    injection hjobs with h
    exact h.symm
  have hagg := pipeline_aggregate k tasks render batches harrive
  have hup : (batches.flatten.map MainEvent.update).count MainEvent.putSentinel = 0 := by
    rw [List.count_eq_zero]
    simp
  refine ⟨batches.flatten, ?_, ?_, hup⟩
  · simp [MulticoreEngine.runMainTrace, hagg]
  · rw [List.count_append, hup, List.count_replicate_self]
    omega

/-- Witness for C8: three workers and three tasks in two jobs, the batches
arriving out of order. -/
theorem shutdown_sentinels_witness :
    ∃ us : List Nat,
      MulticoreEngine.runMainTrace 3 (3 : Int) [[1], [3, 2]] =
        some (us.map MainEvent.update ++
          List.replicate 3 MainEvent.putSentinel) ∧
      (us.map MainEvent.update ++
        List.replicate 3 MainEvent.putSentinel).count MainEvent.putSentinel = 3 ∧
      (us.map MainEvent.update).count MainEvent.putSentinel = 0 :=
  shutdown_sentinels 3 2 (by decide) [1, 2, 3] (fun n => n) [[3, 2], [1]] rfl
    [[1], [3, 2]] (by decide)

/-- C3 counterexample: three concrete divergences from the claim.  The
setter accepts the non-integer `1.5` without error; constructing the engine
with `tasks_per_job = 0` does not raise but silently stores the default `1`;
and assigning `None` to the attribute after construction raises a
`TypeError`, not the default. -/
theorem tasks_per_job_claim_counterexample :
    MulticoreEngine.tasks_per_job_set (.float (3 / 2)) = .ok (.float (3 / 2)) ∧
    MulticoreEngine.init 4 .none (.int 0) = .ok ((4 : Int), .int 1) ∧
    MulticoreEngine.tasks_per_job_set .none = .error .typeError := by
  refine ⟨?_, rfl, rfl⟩
  have h : ¬ (3 / 2 : Rat) < 1 := by norm_num
  simp [MulticoreEngine.tasks_per_job_set, pyLtOne, h]

/-- C3 (amended): assigning `tasks_per_job` a number below 1 — zero or
negative included — raises `InvalidConfiguration` citing that the number of
tasks per job must be greater than zero; a number at least 1 is accepted even
when it is not an integer; assigning `None` raises a `TypeError`.  At
construction a falsy `tasks_per_job` argument (unset, `None` or `0`) is
replaced by the default `1` before validation. -/
theorem tasks_per_job_validation (c : Nat) :
    (∀ n : Int, n < 1 →
      MulticoreEngine.tasks_per_job_set (.int n) =
        .error (.invalidConfiguration
          "The number of tasks per job must be greater than zero.")) ∧
    (∀ n : Int, 1 ≤ n →
      MulticoreEngine.tasks_per_job_set (.int n) = .ok (.int n)) ∧
    (∀ q : Rat, q < 1 →
      MulticoreEngine.tasks_per_job_set (.float q) =
        .error (.invalidConfiguration
          "The number of tasks per job must be greater than zero.")) ∧
    (∀ q : Rat, 1 ≤ q →
      MulticoreEngine.tasks_per_job_set (.float q) = .ok (.float q)) ∧
    MulticoreEngine.tasks_per_job_set .none = .error .typeError ∧
    MulticoreEngine.init c .none .none = .ok ((c : Int), .int 1) ∧
    MulticoreEngine.init c .none (.int 0) = .ok ((c : Int), .int 1) := by
  refine ⟨?_, ?_, ?_, ?_, rfl, rfl, rfl⟩
  · intro n hn
    simp [MulticoreEngine.tasks_per_job_set, pyLtOne, hn]
  · intro n hn
    have h : ¬ n < 1 := not_lt.mpr hn
    simp [MulticoreEngine.tasks_per_job_set, pyLtOne, h]
  · intro q hq
    simp [MulticoreEngine.tasks_per_job_set, pyLtOne, hq]
  · intro q hq
    have h : ¬ q < 1 := not_lt.mpr hq
    simp [MulticoreEngine.tasks_per_job_set, pyLtOne, h]

/-- Witness for the amended C3: assigning zero raises the configuration
error. -/
theorem tasks_per_job_validation_witness :
    MulticoreEngine.tasks_per_job_set (.int 0) =
      .error (.invalidConfiguration
        "The number of tasks per job must be greater than zero.") :=
  (tasks_per_job_validation 1).1 0 (by decide)

/-- C4: assigning `processes` a number that is zero or negative raises
`InvalidConfiguration` citing that the number of worker processes must be
greater than zero; assigning `None` resolves at assignment time to the
detected core count, a positive integer (the platform guarantees at least
one core). -/
theorem processes_validation (cpuCount : Nat) (hc : 1 ≤ cpuCount) :
    (∀ n : Int, n ≤ 0 →
      MulticoreEngine.processes_set cpuCount (.int n) =
        .error (.invalidConfiguration
          "Number of concurrent worker processes must be greater than zero.")) ∧
    (∀ q : Rat, q ≤ 0 →
      MulticoreEngine.processes_set cpuCount (.float q) =
        .error (.invalidConfiguration
          "Number of concurrent worker processes must be greater than zero.")) ∧
    MulticoreEngine.processes_set cpuCount .none = .ok (cpuCount : Int) ∧
    0 < ((cpuCount : Nat) : Int) := by
  refine ⟨?_, ?_, rfl, by omega⟩
  · intro n hn
    simp [MulticoreEngine.processes_set, pyInt, hn]
  · intro q hq
    have htr : (if q < 0 then ⌈q⌉ else ⌊q⌋) ≤ 0 := by
      split
      · exact Int.ceil_le.mpr (by exact_mod_cast hq)
      · have h0 : q = 0 := le_antisymm hq (not_lt.mp (by assumption))
        simp [h0]
    simp [MulticoreEngine.processes_set, pyInt, htr]

/-- Witness for C4: with four detected cores, assigning zero raises and
`None` resolves to 4. -/
theorem processes_validation_witness :
    MulticoreEngine.processes_set 4 (.int 0) =
      .error (.invalidConfiguration
        "Number of concurrent worker processes must be greater than zero.") :=
  (processes_validation 4 (by decide)).1 0 (by decide)

/-- C9: the constructor replaces a falsy `tasks_per_job` argument with the
default `1` before the validating setter runs, so construction with
`tasks_per_job = 0` succeeds and stores `1`, while assigning `0` to the
attribute after construction raises. -/
theorem init_coerces_falsy_tasks_per_job (c : Nat) :
    MulticoreEngine.init c .none (.int 0) = .ok ((c : Int), .int 1) ∧
    MulticoreEngine.tasks_per_job_set (.int 0) =
      .error (.invalidConfiguration
        "The number of tasks per job must be greater than zero.") :=
  ⟨rfl, rfl⟩
